import Mathlib

/-!
Verification of the Pixshop state-management core (src/App.tsx and
src/components/VariationSelector.tsx), shallowly embedded in Lean.

Images, crops and videos are opaque binary blobs in the source (`File`,
`PixelCrop`, `Blob`); they are modelled as small structures with decidable
equality.  React `useState` cells become fields of a single `AppState`
record; each handler becomes a pure function `AppState → ... → AppState`.
Calls to the external generative-AI collaborator are modelled as
`Except String`-valued inputs to the handler that awaits them.
-/

namespace Pixshop

/-- Opaque image resource (a `File` in the source). -/
structure Image where
  id : Nat
deriving DecidableEq, Repr

/-- Crop selection (react-image-crop `Crop` / `PixelCrop`), opaque here:
the handlers under verification only set and clear it. -/
structure CropSel where
  x : Int
  y : Int
  width : Int
  height : Int
deriving DecidableEq, Repr

/-- Video result (`{ url, blob }` in the source), opaque. -/
structure VideoRes where
  id : Nat
deriving DecidableEq, Repr

/-- Retouch hotspot `{ x, y }` in natural-pixel coordinates. -/
structure Hotspot where
  x : Int
  y : Int
deriving DecidableEq, Repr

/-- The `Tab` union type of App.tsx line 94. -/
inductive Tab where
  | retouch
  | adjust
  | filters
  | crop
  | video
  | reference
  | character
deriving DecidableEq, Repr

/-- `type BatchImage = { original: File; edited: File; }` (App.tsx line 95). -/
structure BatchImage where
  original : Image
  edited : Image
deriving DecidableEq, Repr

/-- The `useState` cells of the App component (App.tsx lines 99-128) that the
state-transition handlers under verification read or write.  `pendingAction`
holds, in the source, the closure `(selectedImage) => addImageToHistory(selectedImage)`
or null; since only that one closure is ever stored, it is modelled as the
Bool recording whether a pending action is present. -/
structure AppState where
  history : List Image
  historyIndex : Int
  isBatchMode : Bool
  batchImages : List BatchImage
  activeIndex : Nat
  prompt : String
  isLoading : Bool
  loadingMessage : String
  error : Option String
  editHotspot : Option Hotspot
  displayHotspot : Option Hotspot
  activeTab : Tab
  crop : Option CropSel
  completedCrop : Option CropSel
  variationImages : Option (List Image)
  pendingAction : Bool
  videoResult : Option VideoRes
  isExtendingVideo : Bool
  videoLastFrame : Option Image
deriving DecidableEq, Repr

/-- The initial values of the `useState` cells (App.tsx lines 99-128). -/
def initState : AppState where
  history := []
  historyIndex := -1
  isBatchMode := false
  batchImages := []
  activeIndex := 0
  prompt := ""
  isLoading := false
  loadingMessage := "AI is working its magic..."
  error := none
  editHotspot := none
  displayHotspot := none
  activeTab := Tab.retouch
  crop := none
  completedCrop := none
  variationImages := none
  pendingAction := false
  videoResult := none
  isExtendingVideo := false
  videoLastFrame := none

/-- JS `array.slice(0, e)`.  In every state the handlers reach,
`historyIndex + 1 ≥ 0`, where `Int.toNat` agrees with JS slice. -/
def sliceTo (l : List α) (e : Int) : List α :=
  l.take e.toNat

/-- JS `array[i]` for a possibly negative index: `undefined` (none) when out
of range. -/
def elemAt (l : List α) (i : Int) : Option α :=
  if i < 0 then none else l.get? i.toNat

/-- JS `newBatch[activeIndex] = { ...newBatch[activeIndex], edited: img }`
for an in-range index (the only reachable case). -/
def updateEdited : List BatchImage → Nat → Image → List BatchImage
  | [], _, _ => []
  | p :: ps, 0, img => { p with edited := img } :: ps
  | p :: ps, Nat.succ n, img => p :: updateEdited ps n img

/-- `currentImage` (App.tsx line 132):
`isBatchMode ? batchImages[activeIndex]?.edited : history[historyIndex]`. -/
def currentImage (s : AppState) : Option Image :=
  if s.isBatchMode then (s.batchImages.get? s.activeIndex).map BatchImage.edited
  else elemAt s.history s.historyIndex

/-- `const canUndo = historyIndex > 0` (App.tsx line 159). -/
def canUndo (s : AppState) : Bool :=
  s.historyIndex > 0

/-- `const canRedo = historyIndex < history.length - 1` (App.tsx line 160). -/
def canRedo (s : AppState) : Bool :=
  s.historyIndex < (s.history.length : Int) - 1

/-- `addImageToHistory` (App.tsx lines 162-178). -/
def addImageToHistory (s : AppState) (newImageFile : Image) : AppState :=
  let s1 :=
    if s.isBatchMode then
      { s with batchImages := updateEdited s.batchImages s.activeIndex newImageFile }
    else
      let newHistory := sliceTo s.history (s.historyIndex + 1) ++ [newImageFile]
      { s with history := newHistory, historyIndex := (newHistory.length : Int) - 1 }
  { s1 with crop := none, completedCrop := none }

/-- `handleSingleImageUpload` (App.tsx lines 180-192). -/
def handleSingleImageUpload (s : AppState) (file : Image) : AppState :=
  { s with isBatchMode := false, batchImages := [], error := none,
           videoResult := none, history := [file], historyIndex := 0,
           editHotspot := none, displayHotspot := none,
           activeTab := Tab.retouch, crop := none, completedCrop := none }

/-- `handleBatchUpload` (App.tsx lines 194-204). -/
def handleBatchUpload (s : AppState) (files : List Image) : AppState :=
  { s with isBatchMode := true, history := [], historyIndex := -1,
           error := none, videoResult := none,
           batchImages := files.map (fun f => { original := f, edited := f }),
           activeIndex := 0, activeTab := Tab.adjust }

/-- Success tail of `handleGenerateVariations` (App.tsx lines 214-215):
`setVariationImages(variationFiles); setPendingAction(() => ... addImageToHistory ...)`. -/
def openVariationGate (s : AppState) (candidates : List Image) : AppState :=
  { s with variationImages := some candidates, pendingAction := true }

/-- `handleGenerateVariations` (App.tsx lines 206-221).  The awaited
`generator()` (N collaborator calls plus `dataURLtoFile` conversion, both of
which can throw inside the `try`) is modelled by its `Except` outcome. -/
def handleGenerateVariations (s : AppState) (result : Except String (List Image)) : AppState :=
  match currentImage s with
  | none => s
  | some _ =>
    let s1 := { s with isLoading := true,
                       loadingMessage := "Generating variations...", error := none }
    match result with
    | Except.ok files => { openVariationGate s1 files with isLoading := false }
    | Except.error msg => { s1 with error := some msg, isLoading := false }

/-- `handleVariationSelected` (App.tsx lines 244-250).  The second component
instruments the call trace of `pendingAction`: the list of arguments the
stored closure was invoked with during this handler. -/
def handleVariationSelected (s : AppState) (selectedImage : Image) : AppState × List Image :=
  if s.pendingAction then
    ({ addImageToHistory s selectedImage with variationImages := none, pendingAction := false },
     [selectedImage])
  else
    ({ s with variationImages := none, pendingAction := false }, [])

/-- `handleVariationCancel` (App.tsx lines 252-255), instrumented with the
(always empty) trace of `pendingAction` invocations. -/
def handleVariationCancel (s : AppState) : AppState × List Image :=
  ({ s with variationImages := none, pendingAction := false }, [])

/-- The VariationSelector confirm path (`Select this version`,
VariationSelector.tsx line 111): `onSelect(images[selectedIndex])`, with
`onSelect = handleVariationSelected`.  None when the gate is closed or the
index has no candidate. -/
def confirmVariation (s : AppState) (idx : Nat) : Option (AppState × List Image) :=
  match s.variationImages with
  | none => none
  | some imgs => (imgs.get? idx).map (handleVariationSelected s)

/-- Undo button handler (App.tsx line 545):
`historyIndex > 0 && setHistoryIndex(historyIndex - 1)`. -/
def undo (s : AppState) : AppState :=
  if s.historyIndex > 0 then { s with historyIndex := s.historyIndex - 1 } else s

/-- Redo button handler (App.tsx line 546):
`historyIndex < history.length - 1 && setHistoryIndex(historyIndex + 1)`. -/
def redo (s : AppState) : AppState :=
  if s.historyIndex < (s.history.length : Int) - 1 then
    { s with historyIndex := s.historyIndex + 1 }
  else s

/-- Reset button (App.tsx line 551): `setHistoryIndex(0)`; the button is only
rendered when `canUndo`, so the action is guarded by it. -/
def resetToOriginal (s : AppState) : AppState :=
  if canUndo s then { s with historyIndex := 0 } else s

/-- `setActiveIndex` as wired to `BatchThumbnailTray onSelect`
(App.tsx lines 105 and 503): the raw state setter, no validation. -/
def setActive (s : AppState) (i : Nat) : AppState :=
  { s with activeIndex := i }

/-- `handleBackToEditor` (App.tsx lines 323-330). -/
def handleBackToEditor (s : AppState) : AppState :=
  { s with videoResult := none, isExtendingVideo := false, videoLastFrame := none }

/-- `resetState` (App.tsx lines 347-357). -/
def resetState (s : AppState) : AppState :=
  handleBackToEditor
    { s with isBatchMode := false, batchImages := [], history := [],
             historyIndex := -1, error := none, prompt := "",
             editHotspot := none, displayHotspot := none }

/-- Loading message set at the top of each `handleBatchApply` iteration
(App.tsx line 266). -/
def applyingMsg (i total : Nat) : String :=
  "Applying to image " ++ toString (i + 1) ++ " of " ++ toString total ++ "..."

/-- Error message of the `handleBatchApply` catch branch (App.tsx line 273). -/
def failMsg (i : Nat) (msg : String) : String :=
  "Failed to apply to image " ++ toString (i + 1) ++ ": " ++ msg ++
    ". Batch operation stopped."

/-- The `for` loop of `handleBatchApply` (App.tsx lines 264-277).  `op` is the
external collaborator call composed with `dataURLtoFile` (both inside the
`try`), modelled by its `Except` outcome per original image.  Returns the
final pair list and, on first failure, the failing 0-based index and raw
message. -/
def batchApplyLoop (op : Image → String → Except String Image) (prompt : String) :
    List BatchImage → Nat → List BatchImage × Option (Nat × String)
  | [], _ => ([], none)
  | p :: ps, i =>
    match op p.original prompt with
    | Except.ok v =>
      let r := batchApplyLoop op prompt ps (i + 1)
      ({ p with edited := v } :: r.1, r.2)
    | Except.error msg => (p :: ps, some (i, msg))

/-- `handleBatchApply` (App.tsx lines 257-281).  On the success path the
source leaves `isLoading` true for one second (`setTimeout(..., 1000)`)
before clearing it; the state modelled is the one immediately after the
loop. -/
def handleBatchApply (op : Image → String → Except String Image) (prompt : String)
    (s : AppState) : AppState :=
  match batchApplyLoop op prompt s.batchImages 0 with
  | (newBatch, some fi) =>
    { s with batchImages := newBatch,
             loadingMessage := applyingMsg fi.1 s.batchImages.length,
             error := some (failMsg fi.1 fi.2), isLoading := false }
  | (newBatch, none) =>
    { s with batchImages := newBatch, error := none,
             loadingMessage := "Batch apply complete!", isLoading := true }

/-- The seek target assigned in `extractLastFrame` (App.tsx line 68):
`video.currentTime = video.duration > 0.1 ? video.duration - 0.1 : 0`.
Durations are modelled as rationals. -/
def extractLastFrameSeek (duration : ℚ) : ℚ :=
  if duration > 1/10 then duration - 1/10 else 0

/-- Spec-side reference model of `commit`, from the spec's words: drop every
entry after the current cursor, append the resource, move the cursor to the
new tail. -/
def specCommit (hist : List Image) (cursor : Int) (x : Image) : List Image × Int :=
  let kept := hist.take (cursor + 1).toNat
  (kept ++ [x], (kept.length : Int))

/-- *p* with its `edited` field replaced by the collaborator's successful
output for `p.original` (unchanged when the call fails); characterises the
per-pair effect of one successful `handleBatchApply` iteration. -/
def applyOk (op : Image → String → Except String Image) (prompt : String)
    (p : BatchImage) : BatchImage :=
  match op p.original prompt with
  | Except.ok v => { p with edited := v }
  | Except.error _ => p

/-- Whether the character list starts with `sub`. -/
def startsWithList : List Char → List Char → Bool
  | [], _ => true
  | _ :: _, [] => false
  | c :: cs, d :: ds => c == d && startsWithList cs ds

/-- Whether `sub` occurs as a contiguous run inside the character list. -/
def infixOfList (sub : List Char) : List Char → Bool
  | [] => startsWithList sub []
  | d :: ds => startsWithList sub (d :: ds) || infixOfList sub ds

/-- Whether `msg` mentions the text `sub` somewhere inside it. -/
def strMentions (msg sub : String) : Bool :=
  infixOfList sub.toList msg.toList

/-! ## Operation languages for the reachability claims -/

/-- The five single-image history operations of claim C8: upload, commit,
and the undo / redo / reset button actions. -/
inductive HistOp where
  | upload (f : Image)
  | commit (f : Image)
  | undo
  | redo
  | reset
deriving DecidableEq, Repr

/-- One history step, by the corresponding App.tsx handler.  A commit can
only reach `addImageToHistory` behind the `if (!currentImage) return` guard
of the generation flow (App.tsx line 207) — or with an on-screen image, for
the crop path — so it is guarded by `currentImage`. -/
def histStep (s : AppState) : HistOp → AppState
  | HistOp.upload f => handleSingleImageUpload s f
  | HistOp.commit f => if (currentImage s).isSome then addImageToHistory s f else s
  | HistOp.undo => undo s
  | HistOp.redo => redo s
  | HistOp.reset => resetToOriginal s

/-- Replay a history-operation sequence from the initial state. -/
def runHist (ops : List HistOp) : AppState :=
  ops.foldl histStep initState

/-- The most recent upload in the sequence, continuing from `u`. -/
def lastUploadFrom (u : Option Image) (ops : List HistOp) : Option Image :=
  ops.foldl (fun acc op => match op with | HistOp.upload f => some f | _ => acc) u

/-- The most recent upload in the sequence, if any. -/
def lastUpload (ops : List HistOp) : Option Image :=
  lastUploadFrom none ops

/-- History-store invariant, indexed by the most recent upload: before any
upload the history is empty with cursor -1; afterwards the head of the
history is that upload and the cursor is in range. -/
def HistInv : Option Image → AppState → Prop
  | none, s => s.isBatchMode = false ∧ s.history = [] ∧ s.historyIndex = -1
  | some f, s => s.isBatchMode = false ∧ s.history.head? = some f
      ∧ 0 ≤ s.historyIndex ∧ s.historyIndex < (s.history.length : Int)

/-- The mode-changing operations of claim C10. -/
inductive ModeOp where
  | uploadSingle (f : Image)
  | uploadBatch (fs : List Image)
  | resetAll
deriving DecidableEq, Repr

/-- One mode step, by the corresponding App.tsx handler. -/
def modeStep (s : AppState) : ModeOp → AppState
  | ModeOp.uploadSingle f => handleSingleImageUpload s f
  | ModeOp.uploadBatch fs => handleBatchUpload s fs
  | ModeOp.resetAll => resetState s

/-- Replay a mode-operation sequence from the initial state. -/
def runMode (ops : List ModeOp) : AppState :=
  ops.foldl modeStep initState

/-! ## Concrete example states used by witnesses and counterexamples -/

/-- A single-image session holding one uploaded image. -/
def exSingleton : AppState :=
  { initState with history := [⟨0⟩], historyIndex := 0 }

/-- A batch session with two pairs and active index 0. -/
def batchTwo : AppState :=
  { initState with isBatchMode := true,
                   batchImages := [⟨⟨0⟩, ⟨0⟩⟩, ⟨⟨1⟩, ⟨1⟩⟩], activeIndex := 0 }

/-- A batch session with three untouched pairs. -/
def batchThree : AppState :=
  { initState with isBatchMode := true,
                   batchImages := [⟨⟨0⟩, ⟨0⟩⟩, ⟨⟨1⟩, ⟨1⟩⟩, ⟨⟨2⟩, ⟨2⟩⟩],
                   activeIndex := 0 }

/-- Collaborator model that rejects image 2 with "boom" and succeeds on every
other image, returning a fresh image. -/
def exOp : Image → String → Except String Image
  | ⟨2⟩, _ => Except.error "boom"
  | ⟨n⟩, _ => Except.ok ⟨n + 100⟩

/-- A concrete crop selection. -/
def cropSel0 : CropSel := ⟨1, 2, 3, 4⟩

/-- A single-image session with the variation gate open, a pending commit,
a set hotspot and a set crop selection. -/
def gateOpenState : AppState :=
  { initState with history := [⟨0⟩], historyIndex := 0,
                   editHotspot := some ⟨3, 4⟩, displayHotspot := some ⟨3, 4⟩,
                   crop := some cropSel0, completedCrop := some cropSel0,
                   variationImages := some [⟨7⟩], pendingAction := true }

/-! ## Theorems -/

/-- Claim C9: the video-frame extraction seek target is
`max(duration - 0.1, 0)`: `d - 0.1` when `d > 0.1` and `0` otherwise, for
every duration `d`. -/
theorem extractLastFrameSeek_eq_max (d : ℚ) :
    extractLastFrameSeek d = max (d - 1/10) 0
      ∧ (1/10 < d → extractLastFrameSeek d = d - 1/10)
      ∧ (d ≤ 1/10 → extractLastFrameSeek d = 0) := by
  unfold extractLastFrameSeek
  rcases lt_or_le (1/10 : ℚ) d with h | h
  · rw [if_pos h]
    exact ⟨(max_eq_left (by linarith)).symm, fun _ => rfl,
           fun h2 => absurd h (not_lt.mpr h2)⟩
  · rw [if_neg (not_lt.mpr h)]
    exact ⟨(max_eq_right (by linarith)).symm,
           fun h2 => absurd h2 (not_lt.mpr h), fun _ => rfl⟩

/-- Witness for C9 at durations 1 and 1/20. -/
theorem extractLastFrameSeek_eq_max_witness :
    extractLastFrameSeek 1 = 1 - 1/10 ∧ extractLastFrameSeek (1/20) = 0 :=
  ⟨(extractLastFrameSeek_eq_max 1).2.1 (by norm_num),
   (extractLastFrameSeek_eq_max (1/20)).2.2 (by norm_num)⟩

/-- Claim C7: `undo` at cursor 0 is a no-op and `redo` at the tail is a
no-op, for every state. -/
theorem undo_redo_boundary_noop (s : AppState) :
    (s.historyIndex = 0 → undo s = s)
      ∧ (s.historyIndex = (s.history.length : Int) - 1 → redo s = s) := by
  constructor
  · intro h
    simp [undo, h]
  · intro h
    simp [redo, h]

/-- Witness for C7 on a one-element history, where the cursor is both at 0
and at the tail. -/
theorem undo_redo_boundary_noop_witness :
    undo exSingleton = exSingleton ∧ redo exSingleton = exSingleton :=
  ⟨(undo_redo_boundary_noop exSingleton).1 rfl,
   (undo_redo_boundary_noop exSingleton).2 (by decide)⟩

/-- Claim C3 counterexample: on the 2-element batch, index 5 is out of range
(2 ≤ 5), yet `setActive` changes the active index from 0 to 5 instead of
ignoring the call. -/
theorem setActive_out_of_range_not_ignored :
    batchTwo.batchImages.length = 2 ∧ batchTwo.activeIndex = 0
      ∧ (setActive batchTwo 5).activeIndex = 5
      ∧ batchTwo.batchImages.length ≤ (setActive batchTwo 5).activeIndex := by
  exact ⟨rfl, rfl, rfl, by decide⟩

/-- Claim C3 amended: `setActive` updates the active index unconditionally
(no range check, no error raised) and touches nothing else; for in-range
indices — the only ones the thumbnail tray issues — the invariant
`activeIndex < length` is preserved. -/
theorem setActive_unconditional (s : AppState) (i : Nat) :
    (setActive s i).activeIndex = i
      ∧ (setActive s i).batchImages = s.batchImages
      ∧ (i < s.batchImages.length →
          (setActive s i).activeIndex < (setActive s i).batchImages.length) :=
  ⟨rfl, rfl, fun h => h⟩

/-- Witness for the amended C3 at in-range index 1 of the 2-element batch. -/
theorem setActive_unconditional_witness :
    (setActive batchTwo 1).activeIndex = 1
      ∧ (setActive batchTwo 1).activeIndex < (setActive batchTwo 1).batchImages.length :=
  ⟨(setActive_unconditional batchTwo 1).1,
   (setActive_unconditional batchTwo 1).2.2 (by decide)⟩

/-- Claim C2 counterexample: from a state with hotspot (3,4) and a set crop,
a successful commit (`handleVariationSelected` with a pending action) leaves
the edit hotspot set, and cancel leaves both the hotspot and the crop
selection set — neither path clears both transient states. -/
theorem variation_commit_keeps_hotspot :
    (handleVariationSelected gateOpenState ⟨7⟩).1.editHotspot = some ⟨3, 4⟩
      ∧ (handleVariationCancel gateOpenState).1.editHotspot = some ⟨3, 4⟩
      ∧ (handleVariationCancel gateOpenState).1.crop = some cropSel0 := by
  exact ⟨rfl, rfl, rfl⟩

/-- Claim C2 amended: a successful commit from the variation gate clears the
crop selection (`crop`, `completedCrop`) and resets the candidates and
pending action, but retains the edit hotspot; cancel clears neither the
hotspot nor the crop selection — it only resets the candidates and pending
action. -/
theorem variation_commit_clears_crop_only (s : AppState) (img : Image) :
    (s.pendingAction = true →
      (handleVariationSelected s img).1.crop = none
        ∧ (handleVariationSelected s img).1.completedCrop = none
        ∧ (handleVariationSelected s img).1.editHotspot = s.editHotspot
        ∧ (handleVariationSelected s img).1.variationImages = none
        ∧ (handleVariationSelected s img).1.pendingAction = false)
      ∧ (handleVariationCancel s).1.crop = s.crop
      ∧ (handleVariationCancel s).1.completedCrop = s.completedCrop
      ∧ (handleVariationCancel s).1.editHotspot = s.editHotspot
      ∧ (handleVariationCancel s).1.variationImages = none
      ∧ (handleVariationCancel s).1.pendingAction = false := by
  constructor
  · intro h
    by_cases hb : s.isBatchMode <;>
      simp [handleVariationSelected, h, addImageToHistory, hb]
  · exact ⟨rfl, rfl, rfl, rfl, rfl⟩

/-- Witness for the amended C2 at the concrete open-gate state. -/
theorem variation_commit_clears_crop_only_witness :
    (handleVariationSelected gateOpenState ⟨7⟩).1.crop = none
      ∧ (handleVariationSelected gateOpenState ⟨7⟩).1.editHotspot = gateOpenState.editHotspot :=
  ⟨((variation_commit_clears_crop_only gateOpenState ⟨7⟩).1 rfl).1,
   ((variation_commit_clears_crop_only gateOpenState ⟨7⟩).1 rfl).2.2.1⟩

/-- Claim C5: after opening the gate on a candidate list, `confirm idx`
invokes the pending commit exactly once, with `candidates[idx]`, and closes
the gate discarding every candidate; `cancel` closes the gate without ever
invoking the commit. -/
theorem confirm_invokes_commit_once (s : AppState) (cands : List Image) (idx : Nat)
    (h : idx < cands.length) :
    (confirmVariation (openVariationGate s cands) idx).map Prod.snd
        = some [cands.get ⟨idx, h⟩]
      ∧ (confirmVariation (openVariationGate s cands) idx).map
          (fun p => (p.1.variationImages, p.1.pendingAction)) = some (none, false)
      ∧ ∀ t : AppState, (handleVariationCancel t).2 = []
          ∧ (handleVariationCancel t).1.variationImages = none
          ∧ (handleVariationCancel t).1.pendingAction = false := by
  refine ⟨?_, ?_, fun t => ⟨rfl, rfl, rfl⟩⟩ <;>
    simp [confirmVariation, openVariationGate, List.getElem?_eq_getElem h,
          handleVariationSelected]

/-- Witness for C5: `open([10,11,12,13])` then `confirm(2)` commits image 12
exactly once and retains no candidate. -/
theorem confirm_invokes_commit_once_witness :
    (confirmVariation (openVariationGate initState [⟨10⟩, ⟨11⟩, ⟨12⟩, ⟨13⟩]) 2).map Prod.snd
        = some [⟨12⟩]
      ∧ (confirmVariation (openVariationGate initState [⟨10⟩, ⟨11⟩, ⟨12⟩, ⟨13⟩]) 2).map
          (fun p => (p.1.variationImages, p.1.pendingAction)) = some (none, false) :=
  ⟨(confirm_invokes_commit_once initState [⟨10⟩, ⟨11⟩, ⟨12⟩, ⟨13⟩] 2 (by decide)).1,
   (confirm_invokes_commit_once initState [⟨10⟩, ⟨11⟩, ⟨12⟩, ⟨13⟩] 2 (by decide)).2.1⟩

/-- Claim C6: when a generation request fails, loading is cleared, the
collaborator's message is surfaced verbatim, and the history, batch store
and pending variation set are exactly as before (no gate is opened).  The
embedding consumes a single collaborator outcome, so no retry occurs. -/
theorem generate_failure_preserves_state (s : AppState) (msg : String)
    (h : (currentImage s).isSome = true) :
    (handleGenerateVariations s (Except.error msg)).isLoading = false
      ∧ (handleGenerateVariations s (Except.error msg)).error = some msg
      ∧ (handleGenerateVariations s (Except.error msg)).history = s.history
      ∧ (handleGenerateVariations s (Except.error msg)).historyIndex = s.historyIndex
      ∧ (handleGenerateVariations s (Except.error msg)).batchImages = s.batchImages
      ∧ (handleGenerateVariations s (Except.error msg)).activeIndex = s.activeIndex
      ∧ (handleGenerateVariations s (Except.error msg)).variationImages = s.variationImages
      ∧ (handleGenerateVariations s (Except.error msg)).pendingAction = s.pendingAction := by
  obtain ⟨img, hi⟩ := Option.isSome_iff_exists.mp h
  simp [handleGenerateVariations, hi]

/-- Witness for C6 on a one-image session with a rejected request. -/
theorem generate_failure_preserves_state_witness :
    (handleGenerateVariations exSingleton (Except.error "blocked")).isLoading = false
      ∧ (handleGenerateVariations exSingleton (Except.error "blocked")).error = some "blocked" :=
  ⟨(generate_failure_preserves_state exSingleton "blocked" (by decide)).1,
   (generate_failure_preserves_state exSingleton "blocked" (by decide)).2.1⟩

/-- Claim C1: in single-image mode, `addImageToHistory` realises the spec's
commit (drop after cursor, append, cursor to new tail); consequently
commit A, commit B, undo, commit C yields history `[A, C]` with cursor at
the tail, and redo is a no-op. -/
theorem commit_truncation_law :
    (∀ (s : AppState) (x : Image), s.isBatchMode = false →
      ((addImageToHistory s x).history, (addImageToHistory s x).historyIndex)
        = specCommit s.history s.historyIndex x)
      ∧ ∀ a b c : Image,
          (addImageToHistory (undo (addImageToHistory (addImageToHistory initState a) b)) c).history
              = [a, c]
            ∧ (addImageToHistory (undo (addImageToHistory (addImageToHistory initState a) b)) c).historyIndex
              = 1
            ∧ redo (addImageToHistory (undo (addImageToHistory (addImageToHistory initState a) b)) c)
              = addImageToHistory (undo (addImageToHistory (addImageToHistory initState a) b)) c := by
  constructor
  · intro s x h
    simp only [addImageToHistory, h, Bool.false_eq_true, if_false, specCommit, sliceTo]
    refine Prod.ext rfl ?_
    simp
  · intro a b c
    refine ⟨?_, ?_, ?_⟩ <;>
      simp [addImageToHistory, undo, redo, initState, sliceTo]

/-- Witness for C1: commit of image 5 on the empty session agrees with the
spec model, and the concrete A,B,undo,C run gives `[1, 3]`. -/
theorem commit_truncation_law_witness :
    ((addImageToHistory initState ⟨5⟩).history, (addImageToHistory initState ⟨5⟩).historyIndex)
        = specCommit initState.history initState.historyIndex ⟨5⟩
      ∧ (addImageToHistory (undo (addImageToHistory (addImageToHistory initState ⟨1⟩) ⟨2⟩)) ⟨3⟩).history
        = [⟨1⟩, ⟨3⟩] :=
  ⟨commit_truncation_law.1 initState ⟨5⟩ rfl,
   (commit_truncation_law.2 ⟨1⟩ ⟨2⟩ ⟨3⟩).1⟩

/-- Behaviour of the batch-apply loop when every pair of `done` succeeds and
`pf` is the first failure: the pairs before the failure are updated, the
failing and later pairs are returned unchanged, the loop stops at the
failing 0-based index `i + done.length`. -/
theorem batchApplyLoop_first_failure (op : Image → String → Except String Image)
    (prompt : String) (rest : List BatchImage) (pf : BatchImage) (msg : String)
    (hf : op pf.original prompt = Except.error msg) :
    ∀ (done : List BatchImage) (i : Nat),
      (∀ p ∈ done, ∃ v, op p.original prompt = Except.ok v) →
      batchApplyLoop op prompt (done ++ pf :: rest) i
        = (done.map (applyOk op prompt) ++ pf :: rest, some (i + done.length, msg)) := by
  intro done
  induction done with
  | nil =>
    intro i _
    simp [batchApplyLoop, hf]
  | cons p ps ih =>
    intro i hd
    obtain ⟨v, hv⟩ := hd p (List.mem_cons_self p ps)
    have hrec := ih (i + 1) (fun q hq => hd q (List.mem_cons_of_mem p hq))
    have harith : i + 1 + ps.length = i + (ps.length + 1) := by omega
    simp only [List.cons_append, batchApplyLoop, hv, List.append_eq, hrec, harith,
               List.map_cons, List.length_cons, applyOk]

/-- Claim C4 amended: `handleBatchApply` applies the operation sequentially
to each pair's original; on the first failure it aborts, keeps the edits
already applied (no rollback), leaves the failing and later pairs unchanged,
and surfaces an error naming the failing image by its 1-based position
("image 3" when the pair at index 2 fails), not by its 0-based index. -/
theorem batchApply_first_failure (op : Image → String → Except String Image)
    (prompt : String) (s : AppState) (done rest : List BatchImage)
    (pf : BatchImage) (msg : String)
    (hs : s.batchImages = done ++ pf :: rest)
    (hd : ∀ p ∈ done, ∃ v, op p.original prompt = Except.ok v)
    (hf : op pf.original prompt = Except.error msg) :
    (handleBatchApply op prompt s).batchImages
        = done.map (applyOk op prompt) ++ pf :: rest
      ∧ (handleBatchApply op prompt s).error = some (failMsg done.length msg)
      ∧ (handleBatchApply op prompt s).isLoading = false
      ∧ ∀ p : BatchImage, (applyOk op prompt p).original = p.original := by
  have hl := batchApplyLoop_first_failure op prompt rest pf msg hf done 0 hd
  refine ⟨?_, ?_, ?_, ?_⟩
  · simp [handleBatchApply, hs, hl]
  · simp [handleBatchApply, hs, hl]
  · simp [handleBatchApply, hs, hl]
  · intro p
    unfold applyOk
    cases op p.original prompt <;> rfl

/-- Witness for the amended C4: three pairs with originals 0,1,2 under a
collaborator that fails on image 2 — pairs 0 and 1 are updated, pair 2 is
returned unchanged, and the error carries position 3. -/
theorem batchApply_first_failure_witness :
    (handleBatchApply exOp "p" batchThree).batchImages
        = [⟨⟨0⟩, ⟨0⟩⟩, ⟨⟨1⟩, ⟨1⟩⟩].map (applyOk exOp "p") ++ ⟨⟨2⟩, ⟨2⟩⟩ :: []
      ∧ (handleBatchApply exOp "p" batchThree).error = some (failMsg 2 "boom") := by
  have hd : ∀ p ∈ [(⟨⟨0⟩, ⟨0⟩⟩ : BatchImage), ⟨⟨1⟩, ⟨1⟩⟩],
      ∃ v, exOp p.original "p" = Except.ok v := by
    intro p hp
    rcases List.mem_cons.mp hp with h | hp2
    · exact ⟨⟨100⟩, by rw [h]; rfl⟩
    · rcases List.mem_cons.mp hp2 with h | h3
      · exact ⟨⟨101⟩, by rw [h]; rfl⟩
      · exact absurd h3 (List.not_mem_nil p)
  have happ := batchApply_first_failure exOp "p" batchThree
    [⟨⟨0⟩, ⟨0⟩⟩, ⟨⟨1⟩, ⟨1⟩⟩] [] ⟨⟨2⟩, ⟨2⟩⟩ "boom" rfl hd rfl
  exact ⟨happ.1, happ.2.1⟩

/-- Claim C4 counterexample: same run — pairs 0 and 1 updated, pair 2
unchanged, but the surfaced message is
"Failed to apply to image 3: boom. Batch operation stopped.": it mentions
"image 3" and does not mention "image 2", contrary to the claim. -/
theorem batchApply_message_names_image3 :
    (handleBatchApply exOp "p" batchThree).batchImages
        = [⟨⟨0⟩, ⟨100⟩⟩, ⟨⟨1⟩, ⟨101⟩⟩, ⟨⟨2⟩, ⟨2⟩⟩]
      ∧ (handleBatchApply exOp "p" batchThree).error
        = some "Failed to apply to image 3: boom. Batch operation stopped."
      ∧ strMentions "Failed to apply to image 3: boom. Batch operation stopped." "image 2"
        = false
      ∧ strMentions "Failed to apply to image 3: boom. Batch operation stopped." "image 3"
        = true := by
  exact ⟨by decide, by decide, by decide, by decide⟩

/-- Every mode step re-establishes exclusivity on its own: entering
single-image mode empties the batch, entering batch mode empties the
history, and reset empties both. -/
theorem modeStep_exclusive (s : AppState) (op : ModeOp) :
    (modeStep s op).history = [] ∨ (modeStep s op).batchImages = [] := by
  cases op with
  | uploadSingle f => exact Or.inr rfl
  | uploadBatch fs => exact Or.inl rfl
  | resetAll => exact Or.inl rfl

/-- Exclusivity is preserved along any replay. -/
theorem runMode_exclusive_aux (ops : List ModeOp) : ∀ s : AppState,
    (s.history = [] ∨ s.batchImages = []) →
    ((ops.foldl modeStep s).history = [] ∨ (ops.foldl modeStep s).batchImages = []) := by
  induction ops with
  | nil => exact fun s h => h
  | cons op rest ih => exact fun s _ => ih (modeStep s op) (modeStep_exclusive s op)

/-- Claim C10: in every state reachable by upload, batch upload and reset,
the single-image history and the batch collection are never both non-empty;
single upload empties the batch, batch upload empties the history (cursor
-1), and reset empties both. -/
theorem mode_exclusivity :
    (∀ ops : List ModeOp,
      (runMode ops).history = [] ∨ (runMode ops).batchImages = [])
      ∧ (∀ (s : AppState) (f : Image),
          (handleSingleImageUpload s f).batchImages = []
            ∧ (handleSingleImageUpload s f).isBatchMode = false
            ∧ (handleSingleImageUpload s f).history = [f])
      ∧ (∀ (s : AppState) (fs : List Image),
          (handleBatchUpload s fs).history = []
            ∧ (handleBatchUpload s fs).historyIndex = -1
            ∧ (handleBatchUpload s fs).isBatchMode = true)
      ∧ (∀ s : AppState,
          (resetState s).history = [] ∧ (resetState s).batchImages = []
            ∧ (resetState s).historyIndex = -1) := by
  refine ⟨fun ops => runMode_exclusive_aux ops initState (Or.inl rfl), ?_, ?_, ?_⟩
  · exact fun s f => ⟨rfl, rfl, rfl⟩
  · exact fun s fs => ⟨rfl, rfl, rfl⟩
  · exact fun s => ⟨rfl, rfl, rfl⟩

/-- Effect of `addImageToHistory` in single-image mode, field by field. -/
theorem addImageToHistory_single (s : AppState) (x : Image)
    (hb : s.isBatchMode = false) :
    (addImageToHistory s x).history
        = s.history.take (s.historyIndex + 1).toNat ++ [x]
      ∧ (addImageToHistory s x).historyIndex
        = ((s.history.take (s.historyIndex + 1).toNat ++ [x]).length : Int) - 1
      ∧ (addImageToHistory s x).isBatchMode = false := by
  simp [addImageToHistory, hb, sliceTo]

/-- Each history operation preserves the invariant, relative to the updated
most-recent upload. -/
theorem histStep_inv (u : Option Image) (s : AppState) (op : HistOp)
    (h : HistInv u s) :
    HistInv (match op with | HistOp.upload f => some f | _ => u) (histStep s op) := by
  cases op with
  | upload f =>
    refine ⟨rfl, rfl, ?_, ?_⟩
    · show (0 : Int) ≤ 0
      exact le_refl 0
    · show (0 : Int) < ((1 : Nat) : Int)
      norm_num
  | commit f =>
    cases u with
    | none =>
      obtain ⟨hb, hh, hi⟩ := h
      have hc : currentImage s = none := by
        simp [currentImage, hb, hh, hi, elemAt]
      simp only [histStep, hc, Option.isSome_none, Bool.false_eq_true, if_false]
      exact ⟨hb, hh, hi⟩
    | some f0 =>
      obtain ⟨hb, hh, h0, hlen⟩ := h
      have htn : s.historyIndex.toNat < s.history.length := by omega
      have hc : (currentImage s).isSome = true := by
        simp [currentImage, hb, elemAt, not_lt.mpr h0, List.getElem?_eq_getElem htn]
      simp only [histStep, hc, if_true]
      obtain ⟨e1, e2, e3⟩ := addImageToHistory_single s f hb
      cases hhist : s.history with
      | nil => rw [hhist] at hh; cases hh
      | cons hd tl =>
        rw [hhist] at hh
        have hd0 : hd = f0 := by simpa using hh
        have ht : (s.historyIndex + 1).toNat = s.historyIndex.toNat + 1 := by omega
        refine ⟨e3, ?_, ?_, ?_⟩
        · rw [e1, hhist, ht, List.take_succ_cons, List.cons_append,
              List.head?_cons, hd0]
        · rw [e2]
          simp only [List.length_append, List.length_cons, List.length_nil]
          omega
        · rw [e2, e1]
          omega
  | undo =>
    cases u with
    | none =>
      obtain ⟨hb, hh, hi⟩ := h
      have hno : ¬ s.historyIndex > 0 := by omega
      simp only [histStep, undo, if_neg hno]
      exact ⟨hb, hh, hi⟩
    | some f0 =>
      obtain ⟨hb, hh, h0, hlen⟩ := h
      simp only [histStep, undo]
      split
      · next hgt =>
        refine ⟨hb, hh, ?_, ?_⟩
        · show 0 ≤ s.historyIndex - 1
          omega
        · show s.historyIndex - 1 < (s.history.length : Int)
          omega
      · exact ⟨hb, hh, h0, hlen⟩
  | redo =>
    cases u with
    | none =>
      obtain ⟨hb, hh, hi⟩ := h
      have hno : ¬ s.historyIndex < (s.history.length : Int) - 1 := by
        rw [hh, hi]
        norm_num
      simp only [histStep, redo, if_neg hno]
      exact ⟨hb, hh, hi⟩
    | some f0 =>
      obtain ⟨hb, hh, h0, hlen⟩ := h
      simp only [histStep, redo]
      split
      · next hlt =>
        refine ⟨hb, hh, ?_, ?_⟩
        · show 0 ≤ s.historyIndex + 1
          omega
        · show s.historyIndex + 1 < (s.history.length : Int)
          omega
      · exact ⟨hb, hh, h0, hlen⟩
  | reset =>
    cases u with
    | none =>
      obtain ⟨hb, hh, hi⟩ := h
      have hno : ¬ canUndo s = true := by
        simp [canUndo, hi]
      simp only [histStep, resetToOriginal, if_neg hno]
      exact ⟨hb, hh, hi⟩
    | some f0 =>
      obtain ⟨hb, hh, h0, hlen⟩ := h
      simp only [histStep, resetToOriginal]
      split
      · next hcu =>
        have hgt : 0 < s.historyIndex := by
          simpa [canUndo, decide_eq_true_iff] using hcu
        refine ⟨hb, hh, le_refl 0, ?_⟩
        show (0 : Int) < (s.history.length : Int)
        omega
      · exact ⟨hb, hh, h0, hlen⟩

/-- The invariant holds after replaying any operation sequence from any
state satisfying it. -/
theorem runHist_inv_aux (ops : List HistOp) : ∀ (u : Option Image) (s : AppState),
    HistInv u s → HistInv (lastUploadFrom u ops) (ops.foldl histStep s) := by
  induction ops with
  | nil => exact fun u s h => h
  | cons op rest ih => exact fun u s h => ih _ _ (histStep_inv u s op h)

/-- Claim C8: in every state reachable by upload, commit, undo, redo and
reset that has a non-empty history, the element at index 0 is the (most
recent) original upload, the cursor lies within `[0, length-1]`, and redo is
possible exactly while the cursor is strictly behind the tail. -/
theorem history_reachable_invariant (ops : List HistOp)
    (h : (runHist ops).history ≠ []) :
    (runHist ops).history.head? = lastUpload ops
      ∧ 0 ≤ (runHist ops).historyIndex
      ∧ (runHist ops).historyIndex < ((runHist ops).history.length : Int)
      ∧ (canRedo (runHist ops) = true
          ↔ (runHist ops).historyIndex < ((runHist ops).history.length : Int) - 1) := by
  have hi : HistInv (lastUpload ops) (runHist ops) :=
    runHist_inv_aux ops none initState ⟨rfl, rfl, rfl⟩
  cases hu : lastUpload ops with
  | none =>
    rw [hu] at hi
    exact absurd hi.2.1 h
  | some f =>
    rw [hu] at hi
    obtain ⟨_, hh, h0, hlen⟩ := hi
    refine ⟨by rw [hh], h0, hlen, ?_⟩
    simp [canRedo]

/-- Witness for C8 on the run upload 1, commit 2, undo. -/
theorem history_reachable_invariant_witness :
    (runHist [HistOp.upload ⟨1⟩, HistOp.commit ⟨2⟩, HistOp.undo]).history.head?
        = lastUpload [HistOp.upload ⟨1⟩, HistOp.commit ⟨2⟩, HistOp.undo]
      ∧ 0 ≤ (runHist [HistOp.upload ⟨1⟩, HistOp.commit ⟨2⟩, HistOp.undo]).historyIndex :=
  ⟨(history_reachable_invariant [HistOp.upload ⟨1⟩, HistOp.commit ⟨2⟩, HistOp.undo]
      (by decide)).1,
   (history_reachable_invariant [HistOp.upload ⟨1⟩, HistOp.commit ⟨2⟩, HistOp.undo]
      (by decide)).2.1⟩

end Pixshop
